import Mathlib

/-!
# Verification of the Hopfield-network visualisation utilities

A shallow embedding of the pure / arithmetic content of
`src/notebooks/utils.py` (grid-shape computation of `plot_patterns`,
history indexing of `visualise_hopfield_network`, the slicing and
inset-index arithmetic of `plot_energy`, the frame sampling of
`animate_hopfield_network`, and the array transforms `mask_pattern` and
`merge_patterns`), together with proofs of the specified properties.

Numeric array entries are modelled as rationals; numpy arrays are
modelled as index functions whose shape is carried separately.  To talk
about mutation (deep copies, in-place slice assignment) the array
transforms are embedded against an explicit store of arrays addressed by
references, mirroring Python reference semantics.
-/

namespace HopfieldUtils

/-- `grid_size` of `plot_patterns`: the Python expression
`max(i for i in range(1, int(np.sqrt(N) + 1)) if N % i == 0)`.
`range(1, int(sqrt(N) + 1))` enumerates `1, …, ⌊√N⌋`, and the maximum of
the empty generator is modelled as `0` (Python would raise there; the
claims only concern `N ≥ 1`, where the generator is non-empty). -/
def grid_size (N : Nat) : Nat :=
  (((List.range' 1 (Nat.sqrt N)).filter (fun i => N % i == 0)).foldl max 0)

/-- `grid_shape` of `plot_patterns`: `[grid_size, int(N / grid_size)]`,
sorted ascending (the Python `list.sort()` on a two-element list). -/
def grid_shape (N : Nat) : Nat × Nat :=
  let g := grid_size N
  let a := g
  let b := N / g
  if a ≤ b then (a, b) else (b, a)

/-- A 2D numpy array of rationals, modelled as an index function; its
shape `(h, w)` is carried separately by the operations that use it. -/
abbrev Pattern : Type := Nat → Nat → ℚ

/-- A store of arrays addressed by references, modelling Python object
identity: `deepcopy` allocates a fresh reference, in-place slice
assignment overwrites the array behind an existing reference. -/
abbrev Store : Type := List Pattern

/-- Dereference `r`; a dangling reference reads as the zero array. -/
def Store.read (s : Store) (r : Nat) : Pattern := s.getD r (fun _ _ => 0)

/-- Allocate a fresh array, returning the new store and its reference. -/
def Store.alloc (s : Store) (p : Pattern) : Store × Nat := (s ++ [p], s.length)

/-- Overwrite the array behind reference `r` (in-place mutation). -/
def Store.write (s : Store) (r : Nat) (p : Pattern) : Store := s.set r p

/-- `mask_pattern` of the source, against the store: allocate
`mask = np.zeros_like(pattern)`, assign
`mask[: h // 2, : w // 2] = 1` in place, and return the fresh array
`pattern * mask` (elementwise product). -/
def mask_pattern (h w : Nat) (s : Store) (r : Nat) : Store × Nat :=
  let a := Store.alloc s (fun _ _ => 0)
  let s₁ := a.1
  let rmask := a.2
  let s₂ := Store.write s₁ rmask
    (fun i j => if i < h / 2 ∧ j < w / 2 then 1 else Store.read s₁ rmask i j)
  Store.alloc s₂ (fun i j => Store.read s₂ r i j * Store.read s₂ rmask i j)

/-- `merge_patterns` of the source, against the store: deep-copy both
arguments, zero the right half (`[:, w1 // 2 :]`) of the first copy and
the left half (`[:, : w2 // 2]`) of the second in place, and return the
fresh elementwise sum.  Each slice uses the corresponding array's own
width (`pattern1.shape[1]`, `pattern2.shape[1]`). -/
def merge_patterns (w₁ w₂ : Nat) (s : Store) (r₁ r₂ : Nat) : Store × Nat :=
  let a₁ := Store.alloc s (Store.read s r₁)
  let s₁ := a₁.1
  let c₁ := a₁.2
  let a₂ := Store.alloc s₁ (Store.read s₁ r₂)
  let s₂ := a₂.1
  let c₂ := a₂.2
  let s₃ := Store.write s₂ c₁
    (fun i j => if w₁ / 2 ≤ j then 0 else Store.read s₂ c₁ i j)
  let s₄ := Store.write s₃ c₂
    (fun i j => if j < w₂ / 2 then 0 else Store.read s₃ c₂ i j)
  Store.alloc s₄ (fun i j => Store.read s₄ c₁ i j + Store.read s₄ c₂ i j)

/-- Equality of two arrays on the index region of shape `(hgt, w)`
(numpy array equality for arrays of that shape). -/
def eqOn (hgt w : Nat) (p q : Pattern) : Prop :=
  ∀ i < hgt, ∀ j < w, p i j = q i j

instance (hgt w : Nat) (p q : Pattern) : Decidable (eqOn hgt w p q) := by
  unfold eqOn
  infer_instance

/-- Python list subscription `l[i]`, including negative-index semantics:
an index `i < 0` refers to `i + len(l)`, and any index outside
`[-len(l), len(l))` raises `IndexError`, modelled as `none`. -/
def py_index {α : Type} (l : List α) (i : Int) : Option α :=
  let j : Int := if i < 0 then i + l.length else i
  if 0 ≤ j ∧ j < (l.length : Int) then l[j.toNat]? else none

/-- The history access of `visualise_hopfield_network`:
`HopfieldNetwork.history["state"][-steps_back - 1]`. -/
def visualise_read_state {α : Type} (state_history : List α) (steps_back : Nat) :
    Option α :=
  py_index state_history (-(steps_back : Int) - 1)

/-- Python `max` over a list of rationals (the value of `max(energy)`
and the value located by `np.argmax`); on the empty list, modelled as
`0` (Python would raise there). -/
def py_max (l : List ℚ) : ℚ := l.foldl max (l.headD 0)

/-- Python / numpy `min` over a list of rationals; `0` on the empty
list. -/
def py_min (l : List ℚ) : ℚ := l.foldl min (l.headD 0)

/-- `np.ptp`: the peak-to-peak range `max - min`. -/
def np_ptp (l : List ℚ) : ℚ := py_max l - py_min l

/-- `np.argmax`: the index of the first occurrence of the maximum. -/
def np_argmax (l : List ℚ) : Nat := l.findIdx (fun x => decide (py_max l ≤ x))

/-- `np.argmin`: the index of the first occurrence of the minimum. -/
def np_argmin (l : List ℚ) : Nat := l.findIdx (fun x => decide (x ≤ py_min l))

/-- The highlighted pattern of `visualise_hopfield_network`:
`best_pattern_id = np.argmax(np.abs(similarities))`. -/
def best_pattern_id (similarities : List ℚ) : Nat :=
  np_argmax (similarities.map (fun x => |x|))

/-- The `n_steps` actually used by `plot_energy`: the argument if given,
otherwise `len(HopfieldNetwork.history["energy"]) - 2` (Python
subtraction, which can be negative). -/
def plot_energy_n_steps (energy_len : Nat) (n_steps0 : Option Int) : Int :=
  match n_steps0 with
  | some n => n
  | none => (energy_len : Int) - 2

/-- Python slice `l[i:]`, including negative-start semantics: a start
`i < 0` means `max(len(l) + i, 0)`. -/
def py_slice_from {α : Type} (l : List α) (i : Int) : List α :=
  if 0 ≤ i then l.drop i.toNat else l.drop ((l.length : Int) + i).toNat

/-- `np.arange(start, stop)` over integers (stop exclusive). -/
def np_arange (start stop : Int) : List Int :=
  (List.range (stop - start).toNat).map (fun k : Nat => start + (k : Int))

/-- The data plotted by `plot_energy`: the energy values
`energy = history["energy"][-n_steps - 1 :]` and the step axis
`t = np.arange(-n_steps - 1, 0)`. -/
def plot_energy_data (energy_hist : List ℚ) (n_steps0 : Option Int) :
    List ℚ × List Int :=
  let n_steps := plot_energy_n_steps energy_hist.length n_steps0
  (py_slice_from energy_hist (-n_steps - 1), np_arange (-n_steps - 1) 0)

/-- The last `n` elements of a list (the reading of "the last `n`
values" in the specification, used to compare against the code). -/
def lastN {α : Type} (l : List α) (n : Nat) : List α := l.drop (l.length - n)

/-- The argument of the first inset `np.argmin` of `plot_energy`:
`np.abs(np.array(energy) - (max(energy) - np.ptp(energy) / 3))`. -/
def second_inset_dists (energy : List ℚ) : List ℚ :=
  energy.map (fun e => |e - (py_max energy - np_ptp energy / 3)|)

/-- The argument of the second inset `np.argmin` of `plot_energy`:
`np.abs(np.array(energy) - (max(energy) - 2 * np.ptp(energy) / 3))`. -/
def third_inset_dists (energy : List ℚ) : List ℚ :=
  energy.map (fun e => |e - (py_max energy - 2 * np_ptp energy / 3)|)

/-- The "1/3" inset index of `plot_energy`:
`count = np.argmin(np.abs(np.array(energy) - (max(energy) - np.ptp(energy) / 3)))`,
replaced by `int(n_steps / 3)` when `count == 0`. -/
def second_inset_count (energy : List ℚ) (n_steps : Nat) : Nat :=
  let c := np_argmin (second_inset_dists energy)
  if c = 0 then n_steps / 3 else c

/-- The "2/3" inset index of `plot_energy`:
`count = np.argmin(np.abs(np.array(energy) - (max(energy) - 2 * np.ptp(energy) / 3)))`,
replaced by `int(2 * n_steps / 3)` when `count == 0`. -/
def third_inset_count (energy : List ℚ) (n_steps : Nat) : Nat :=
  let c := np_argmin (third_inset_dists energy)
  if c = 0 then 2 * n_steps / 3 else c

/-- `np.linspace(start, stop, num, dtype=int)`: `num` evenly spaced
values from `start` to `stop` inclusive, cast to integer.  The claims
only use non-negative values, where numpy's cast (truncation toward
zero) coincides with the floor taken here. -/
def np_linspace_int (start stop : ℚ) (num : Nat) : List Int :=
  if num = 0 then []
  else if num = 1 then [⌊start⌋]
  else (List.range num).map
    (fun k : Nat => ⌊start + (stop - start) * (k : ℚ) / ((num - 1 : Nat) : ℚ)⌋)

/-- The observable shape of the animation built by
`animate_hopfield_network`: how many frames, which `steps_back` offset
each frame redraws, and the playback interval passed to
`FuncAnimation`. -/
structure AnimationSpec where
  n_frames : Nat
  frame_steps_back : Nat → Int
  interval_ms : ℚ

/-- `animate_hopfield_network` of the source:
`n_frames = int(animation_length_secs * fps)`,
`steps_back_to_plot = np.linspace(0, n_steps, n_frames, dtype=int)`,
frame `i` redraws at `steps_back = n_steps - steps_back_to_plot[i]`, and
the `FuncAnimation` interval is `1000 / fps` milliseconds. -/
def animate_hopfield_network (n_steps : Nat) (fps animation_length_secs : ℚ) :
    AnimationSpec :=
  let n_frames := (⌊animation_length_secs * fps⌋).toNat
  let steps_back_to_plot := np_linspace_int 0 (n_steps : ℚ) n_frames
  { n_frames := n_frames
    frame_steps_back := fun i => (n_steps : Int) - steps_back_to_plot.getD i 0
    interval_ms := 1000 / fps }

/-! ## Theorems -/

theorem foldl_max_init_le {α : Type} [LinearOrder α] (l : List α) (a : α) :
    a ≤ l.foldl max a := by
  induction l generalizing a with
  | nil => simp
  | cons y ys ih => exact le_trans (le_max_left a y) (ih (max a y))

theorem le_foldl_max {α : Type} [LinearOrder α] (l : List α) (a x : α) (hx : x ∈ l) :
    x ≤ l.foldl max a := by
  induction l generalizing a with
  | nil => cases hx
  | cons y ys ih =>
    rcases List.mem_cons.mp hx with rfl | hmem
    · exact le_trans (le_max_right a x) (foldl_max_init_le ys (max a x))
    · exact ih (max a y) hmem

theorem foldl_max_eq_init_or_mem {α : Type} [LinearOrder α] (l : List α) (a : α) :
    l.foldl max a = a ∨ l.foldl max a ∈ l := by
  induction l generalizing a with
  | nil => left; rfl
  | cons y ys ih =>
    simp only [List.foldl_cons]
    rcases ih (max a y) with h | h
    · rcases max_cases a y with ⟨hm, _⟩ | ⟨hm, _⟩
      · left; rw [h, hm]
      · right; rw [h, hm]; exact List.mem_cons_self y ys
    · right; exact List.mem_cons_of_mem y h

theorem grid_size_mem_aux (N : Nat) (hN : 1 ≤ N) :
    grid_size N ∈ (List.range' 1 (Nat.sqrt N)).filter (fun i => N % i == 0) := by
  have h1 : (1 : Nat) ∈ (List.range' 1 (Nat.sqrt N)).filter (fun i => N % i == 0) := by
    rw [List.mem_filter]
    constructor
    · rw [List.mem_range'_1]
      have : 1 ≤ Nat.sqrt N := Nat.le_sqrt.mpr (by omega)
      omega
    · simp [Nat.mod_one]
  have hle : 1 ≤ grid_size N := le_foldl_max _ 0 1 h1
  rcases foldl_max_eq_init_or_mem
      ((List.range' 1 (Nat.sqrt N)).filter (fun i => N % i == 0)) 0 with h | h
  · exfalso; unfold grid_size at hle; omega
  · exact h

theorem grid_size_dvd (N : Nat) (hN : 1 ≤ N) : grid_size N ∣ N := by
  have h := grid_size_mem_aux N hN
  rw [List.mem_filter] at h
  have : N % grid_size N == 0 := h.2
  exact Nat.dvd_of_mod_eq_zero (by simpa using this)

theorem grid_size_pos (N : Nat) (hN : 1 ≤ N) : 1 ≤ grid_size N := by
  have h := grid_size_mem_aux N hN
  rw [List.mem_filter, List.mem_range'_1] at h
  omega

theorem grid_size_le_sqrt (N : Nat) (hN : 1 ≤ N) : grid_size N ≤ Nat.sqrt N := by
  have h := grid_size_mem_aux N hN
  rw [List.mem_filter, List.mem_range'_1] at h
  omega

theorem grid_size_maximal (N d : Nat) (hd : d ∣ N) (hds : d ≤ Nat.sqrt N)
    (hdpos : 1 ≤ d) : d ≤ grid_size N := by
  apply le_foldl_max _ 0 d
  rw [List.mem_filter]
  constructor
  · rw [List.mem_range'_1]
    omega
  · simpa using Nat.mod_eq_zero_of_dvd hd

theorem grid_shape_eq (N : Nat) (hN : 1 ≤ N) :
    grid_shape N = (grid_size N, N / grid_size N) := by
  have hdvd := grid_size_dvd N hN
  have hpos := grid_size_pos N hN
  have hsq := grid_size_le_sqrt N hN
  have hmul : grid_size N * (N / grid_size N) = N := Nat.mul_div_cancel' hdvd
  have hle : grid_size N ≤ N / grid_size N :=
    (Nat.le_div_iff_mul_le (by omega)).mpr (Nat.le_sqrt.mp hsq)
  unfold grid_shape
  simp [hle]

theorem sqrt_four_eq : Nat.sqrt 4 = 2 := by
  have h1 : 2 ≤ Nat.sqrt 4 := Nat.le_sqrt.mpr (by norm_num)
  have h2 : Nat.sqrt 4 < 3 := Nat.sqrt_lt.mpr (by norm_num)
  omega

theorem sqrt_twelve_eq : Nat.sqrt 12 = 3 := by
  have h1 : 3 ≤ Nat.sqrt 12 := Nat.le_sqrt.mpr (by norm_num)
  have h2 : Nat.sqrt 12 < 4 := Nat.sqrt_lt.mpr (by norm_num)
  omega

theorem grid_shape_four : grid_shape 4 = (2, 2) := by
  have hg : grid_size 4 = 2 := by
    unfold grid_size
    rw [sqrt_four_eq]
    rfl
  simp [grid_shape, hg]

/-- C1: for every non-empty pattern mapping of size `N`, `plot_patterns`
computes a grid shape `(rows, cols)` with `rows * cols = N` and
`rows ≤ cols`, where `rows` is the largest divisor of `N` that is
`≤ √N`; in particular, when `N` is prime the shape is `(1, N)`, and when
`N = 4` the shape is `(2, 2)`. -/
theorem plot_patterns_grid_shape_spec (N d : Nat) (hN : 1 ≤ N)
    (hd : d ∣ N) (hds : d ≤ Nat.sqrt N) :
    (grid_shape N).1 * (grid_shape N).2 = N
    ∧ (grid_shape N).1 ≤ (grid_shape N).2
    ∧ (grid_shape N).1 ∣ N
    ∧ (grid_shape N).1 ≤ Nat.sqrt N
    ∧ d ≤ (grid_shape N).1
    ∧ (Nat.Prime N → grid_shape N = (1, N))
    ∧ grid_shape 4 = (2, 2) := by
  have hdpos : 1 ≤ d := by
    rcases Nat.eq_zero_or_pos d with rfl | h
    · exact absurd (Nat.eq_zero_of_zero_dvd hd) (by omega)
    · exact h
  have heq := grid_shape_eq N hN
  have hdvd := grid_size_dvd N hN
  have hpos := grid_size_pos N hN
  have hsq := grid_size_le_sqrt N hN
  have hmul : grid_size N * (N / grid_size N) = N := Nat.mul_div_cancel' hdvd
  have hle : grid_size N ≤ N / grid_size N :=
    (Nat.le_div_iff_mul_le (by omega)).mpr (Nat.le_sqrt.mp hsq)
  refine ⟨by rw [heq]; exact hmul, by rw [heq]; exact hle, by rw [heq]; exact hdvd,
    by rw [heq]; exact hsq, by rw [heq]; exact grid_size_maximal N d hd hds hdpos, ?_,
    grid_shape_four⟩
  intro hp
  have h1N := hp.eq_one_or_self_of_dvd (grid_size N) hdvd
  have hg1 : grid_size N = 1 := by
    rcases h1N with h | h
    · exact h
    · exfalso
      have h2 : 2 ≤ N := hp.two_le
      have : Nat.sqrt N < N := Nat.sqrt_lt_self (by omega)
      omega
  rw [heq, hg1, Nat.div_one]

/-- Witness for C1 at `N = 12`, `d = 3`. -/
theorem plot_patterns_grid_shape_spec_witness :
    (grid_shape 12).1 * (grid_shape 12).2 = 12
    ∧ (grid_shape 12).1 ≤ (grid_shape 12).2
    ∧ (grid_shape 12).1 ∣ 12
    ∧ (grid_shape 12).1 ≤ Nat.sqrt 12
    ∧ 3 ≤ (grid_shape 12).1
    ∧ (Nat.Prime 12 → grid_shape 12 = (1, 12))
    ∧ grid_shape 4 = (2, 2) :=
  plot_patterns_grid_shape_spec 12 3 (by decide) (by decide)
    (by rw [sqrt_twelve_eq])

theorem Store.length_alloc (s : Store) (p : Pattern) :
    (Store.alloc s p).1.length = s.length + 1 := by
  simp [Store.alloc]

theorem Store.length_write (s : Store) (r : Nat) (p : Pattern) :
    (Store.write s r p).length = s.length := by
  simp [Store.write]

theorem Store.alloc_ref (s : Store) (p : Pattern) :
    (Store.alloc s p).2 = s.length := rfl

theorem Store.read_alloc_old (s : Store) (p : Pattern) (r : Nat) (hr : r < s.length) :
    Store.read (Store.alloc s p).1 r = Store.read s r := by
  simp only [Store.read, Store.alloc]
  exact List.getD_append s [p] _ r hr

theorem Store.read_alloc_new (s : Store) (p : Pattern) :
    Store.read (Store.alloc s p).1 (Store.alloc s p).2 = p := by
  simp only [Store.read, Store.alloc]
  rw [List.getD_eq_getElem _ _ (by simp)]
  simp

theorem Store.read_write_self (s : Store) (r : Nat) (p : Pattern) (hr : r < s.length) :
    Store.read (Store.write s r p) r = p := by
  simp only [Store.read, Store.write, List.getD, List.get?_eq_getElem?]
  rw [List.getElem?_set_eq_of_lt p hr]
  rfl

theorem Store.read_write_other (s : Store) (r r₂ : Nat) (p : Pattern) (hne : r₂ ≠ r) :
    Store.read (Store.write s r₂ p) r = Store.read s r := by
  simp only [Store.read, Store.write, List.getD, List.get?_eq_getElem?]
  rw [List.getElem?_set_ne hne]

theorem mask_pattern_read_result (h w : Nat) (s : Store) (r : Nat)
    (hr : r < s.length) (i j : Nat) :
    Store.read (mask_pattern h w s r).1 (mask_pattern h w s r).2 i j
      = Store.read s r i j * (if i < h / 2 ∧ j < w / 2 then 1 else 0) := by
  unfold mask_pattern
  rw [Store.read_alloc_new]
  have hner : (Store.alloc s (fun _ _ => (0 : ℚ))).2 ≠ r := by
    rw [Store.alloc_ref]; omega
  rw [Store.read_write_other _ _ _ _ hner, Store.read_alloc_old _ _ _ hr,
    Store.read_write_self _ _ _ (by rw [Store.alloc_ref, Store.length_alloc]; omega),
    Store.read_alloc_new]

theorem mask_pattern_no_mutation (h w : Nat) (s : Store) (r r₀ : Nat)
    (hr : r₀ < s.length) (i j : Nat) :
    Store.read (mask_pattern h w s r).1 r₀ i j = Store.read s r₀ i j := by
  unfold mask_pattern
  have hner : (Store.alloc s (fun _ _ => (0 : ℚ))).2 ≠ r₀ := by
    rw [Store.alloc_ref]; omega
  have hr2 : r₀ < (Store.write (Store.alloc s (fun _ _ => (0 : ℚ))).1
      (Store.alloc s (fun _ _ => (0 : ℚ))).2
      (fun i j => if i < h / 2 ∧ j < w / 2 then 1
        else Store.read (Store.alloc s (fun _ _ => (0 : ℚ))).1
          (Store.alloc s (fun _ _ => (0 : ℚ))).2 i j)).length := by
    rw [Store.length_write, Store.length_alloc]; omega
  rw [Store.read_alloc_old _ _ _ hr2, Store.read_write_other _ _ _ _ hner,
    Store.read_alloc_old _ _ _ hr]

theorem mask_pattern_ref_fresh (h w : Nat) (s : Store) (r : Nat) (hr : r < s.length) :
    r < (mask_pattern h w s r).2 := by
  unfold mask_pattern
  rw [Store.alloc_ref, Store.length_write, Store.length_alloc]
  omega

/-- C2: for every 2D pattern of shape `(h, w)`, `mask_pattern` returns a
new array that equals the input at every position with row index
`< ⌊h/2⌋` and column index `< ⌊w/2⌋` and is zero at every other
position, and the call does not mutate the input array. -/
theorem mask_pattern_spec (h w : Nat) (s : Store) (r : Nat) (hr : r < s.length)
    (i j : Nat) :
    Store.read (mask_pattern h w s r).1 (mask_pattern h w s r).2 i j
      = (if i < h / 2 ∧ j < w / 2 then Store.read s r i j else 0)
    ∧ Store.read (mask_pattern h w s r).1 r i j = Store.read s r i j
    ∧ r < (mask_pattern h w s r).2 := by
  refine ⟨?_, mask_pattern_no_mutation h w s r r hr i j, mask_pattern_ref_fresh h w s r hr⟩
  rw [mask_pattern_read_result h w s r hr i j]
  by_cases hc : i < h / 2 ∧ j < w / 2 <;> simp [hc]

/-- Witness for C2 at a concrete 4×4 pattern, inside the quadrant. -/
theorem mask_pattern_spec_witness :
    Store.read (mask_pattern 4 4 [fun i j => (i * 10 + j : ℚ)] 0).1
        (mask_pattern 4 4 [fun i j => (i * 10 + j : ℚ)] 0).2 1 1
      = (if 1 < 4 / 2 ∧ 1 < 4 / 2
          then Store.read [fun i j => (i * 10 + j : ℚ)] 0 1 1 else 0)
    ∧ Store.read (mask_pattern 4 4 [fun i j => (i * 10 + j : ℚ)] 0).1 0 1 1
      = Store.read [fun i j => (i * 10 + j : ℚ)] 0 1 1
    ∧ 0 < (mask_pattern 4 4 [fun i j => (i * 10 + j : ℚ)] 0).2 :=
  mask_pattern_spec 4 4 [fun i j => (i * 10 + j : ℚ)] 0 (by decide) 1 1

/-- C10: for every 2D pattern with fewer than 2 rows or fewer than 2
columns, `mask_pattern` returns the all-zero array (the top-left
quadrant `rows < ⌊h/2⌋`, `cols < ⌊w/2⌋` is empty, so nothing of the
input survives). -/
theorem mask_pattern_degenerate (h w : Nat) (s : Store) (r : Nat)
    (hr : r < s.length) (hsmall : h < 2 ∨ w < 2) (i j : Nat) :
    Store.read (mask_pattern h w s r).1 (mask_pattern h w s r).2 i j = 0 := by
  rw [mask_pattern_read_result h w s r hr i j]
  have hc : ¬ (i < h / 2 ∧ j < w / 2) := by omega
  simp [hc]

/-- Witness for C10 at a 1×4 all-ones pattern. -/
theorem mask_pattern_degenerate_witness :
    Store.read (mask_pattern 1 4 [fun _ _ => (1 : ℚ)] 0).1
      (mask_pattern 1 4 [fun _ _ => (1 : ℚ)] 0).2 0 1 = 0 :=
  mask_pattern_degenerate 1 4 [fun _ _ => (1 : ℚ)] 0 (by decide) (by decide) 0 1

theorem merge_patterns_read_result (w₁ w₂ : Nat) (s : Store) (r₁ r₂ : Nat)
    (h₂ : r₂ < s.length) (i j : Nat) :
    Store.read (merge_patterns w₁ w₂ s r₁ r₂).1 (merge_patterns w₁ w₂ s r₁ r₂).2 i j
      = (if w₁ / 2 ≤ j then 0 else Store.read s r₁ i j)
        + (if j < w₂ / 2 then 0 else Store.read s r₂ i j) := by
  unfold merge_patterns
  rw [Store.read_alloc_new]
  generalize hA : Store.alloc s (Store.read s r₁) = A
  generalize hB : Store.alloc A.1 (Store.read A.1 r₂) = B
  have hA2 : A.2 = s.length := by rw [← hA, Store.alloc_ref]
  have hA1len : A.1.length = s.length + 1 := by rw [← hA, Store.length_alloc]
  have hAnew : A.1.read A.2 = s.read r₁ := by rw [← hA, Store.read_alloc_new]
  have hAr₂ : A.1.read r₂ = s.read r₂ := by
    rw [← hA]; exact Store.read_alloc_old _ _ _ h₂
  have hB2 : B.2 = s.length + 1 := by rw [← hB, Store.alloc_ref, hA1len]
  have hB1len : B.1.length = s.length + 2 := by rw [← hB, Store.length_alloc, hA1len]
  have hBnew : B.1.read B.2 = s.read r₂ := by rw [← hB, Store.read_alloc_new, hAr₂]
  have hBA2 : B.1.read A.2 = s.read r₁ := by
    rw [← hB, Store.read_alloc_old _ _ _ (by omega), hAnew]
  generalize hC : Store.write B.1 A.2
    (fun i j => if w₁ / 2 ≤ j then 0 else Store.read B.1 A.2 i j) = C
  have hClen : C.length = s.length + 2 := by rw [← hC, Store.length_write, hB1len]
  have hCA : C.read A.2 = fun i j => if w₁ / 2 ≤ j then 0 else B.1.read A.2 i j := by
    rw [← hC, Store.read_write_self _ _ _ (by omega)]
  have hCB : C.read B.2 = B.1.read B.2 := by
    rw [← hC, Store.read_write_other _ _ _ _ (by omega)]
  generalize hD : Store.write C B.2
    (fun i j => if j < w₂ / 2 then 0 else Store.read C B.2 i j) = D
  have hDA : D.read A.2 = C.read A.2 := by
    rw [← hD, Store.read_write_other _ _ _ _ (by omega)]
  have hDB : D.read B.2 = fun i j => if j < w₂ / 2 then 0 else C.read B.2 i j := by
    rw [← hD, Store.read_write_self _ _ _ (by omega)]
  rw [hDA, hCA, hDB, hCB, hBnew, hBA2]

theorem merge_patterns_no_mutation (w₁ w₂ : Nat) (s : Store) (r₁ r₂ r₀ : Nat)
    (hr₀ : r₀ < s.length) (i j : Nat) :
    Store.read (merge_patterns w₁ w₂ s r₁ r₂).1 r₀ i j = Store.read s r₀ i j := by
  simp only [merge_patterns]
  generalize hA : Store.alloc s (Store.read s r₁) = A
  generalize hB : Store.alloc A.1 (Store.read A.1 r₂) = B
  have hA2 : A.2 = s.length := by rw [← hA, Store.alloc_ref]
  have hA1len : A.1.length = s.length + 1 := by rw [← hA, Store.length_alloc]
  have hAr₀ : A.1.read r₀ = s.read r₀ := by
    rw [← hA]; exact Store.read_alloc_old _ _ _ hr₀
  have hB2 : B.2 = s.length + 1 := by rw [← hB, Store.alloc_ref, hA1len]
  have hB1len : B.1.length = s.length + 2 := by rw [← hB, Store.length_alloc, hA1len]
  have hBr₀ : B.1.read r₀ = s.read r₀ := by
    rw [← hB, Store.read_alloc_old _ _ _ (by omega), hAr₀]
  generalize hC : Store.write B.1 A.2
    (fun i j => if w₁ / 2 ≤ j then 0 else Store.read B.1 A.2 i j) = C
  have hClen : C.length = s.length + 2 := by rw [← hC, Store.length_write, hB1len]
  have hCr₀ : C.read r₀ = s.read r₀ := by
    rw [← hC, Store.read_write_other _ _ _ _ (by omega), hBr₀]
  generalize hD : Store.write C B.2
    (fun i j => if j < w₂ / 2 then 0 else Store.read C B.2 i j) = D
  have hDlen : D.length = s.length + 2 := by rw [← hD, Store.length_write, hClen]
  have hDr₀ : D.read r₀ = s.read r₀ := by
    rw [← hD, Store.read_write_other _ _ _ _ (by omega), hCr₀]
  rw [Store.read_alloc_old _ _ _ (by omega), hDr₀]

theorem merge_patterns_ref_fresh (w₁ w₂ : Nat) (s : Store) (r₁ r₂ r₀ : Nat)
    (hr₀ : r₀ < s.length) : r₀ < (merge_patterns w₁ w₂ s r₁ r₂).2 := by
  unfold merge_patterns
  rw [Store.alloc_ref, Store.length_write, Store.length_write, Store.length_alloc,
    Store.length_alloc]
  omega

/-- C3: for every two 2D patterns `p1`, `p2` of equal shape `(h, w)`,
`merge_patterns p1 p2` returns a new array equal to `p1` at every column
index `< ⌊w/2⌋` and equal to `p2` at every column index `≥ ⌊w/2⌋`, and
neither input array is mutated by the call. -/
theorem merge_patterns_spec (w : Nat) (s : Store) (r₁ r₂ : Nat)
    (h₁ : r₁ < s.length) (h₂ : r₂ < s.length) (i j : Nat) :
    Store.read (merge_patterns w w s r₁ r₂).1 (merge_patterns w w s r₁ r₂).2 i j
      = (if j < w / 2 then Store.read s r₁ i j else Store.read s r₂ i j)
    ∧ Store.read (merge_patterns w w s r₁ r₂).1 r₁ i j = Store.read s r₁ i j
    ∧ Store.read (merge_patterns w w s r₁ r₂).1 r₂ i j = Store.read s r₂ i j
    ∧ r₁ < (merge_patterns w w s r₁ r₂).2
    ∧ r₂ < (merge_patterns w w s r₁ r₂).2 := by
  refine ⟨?_, merge_patterns_no_mutation w w s r₁ r₂ r₁ h₁ i j,
    merge_patterns_no_mutation w w s r₁ r₂ r₂ h₂ i j,
    merge_patterns_ref_fresh w w s r₁ r₂ r₁ h₁,
    merge_patterns_ref_fresh w w s r₁ r₂ r₂ h₂⟩
  rw [merge_patterns_read_result w w s r₁ r₂ h₂ i j]
  by_cases hc : j < w / 2
  · have hcn : ¬ w / 2 ≤ j := by omega
    simp [hc, hcn]
  · have hcn : w / 2 ≤ j := by omega
    simp [hc, hcn]

/-- Witness for C3 at two concrete 4×4 patterns, in the left half. -/
theorem merge_patterns_spec_witness :
    Store.read (merge_patterns 4 4 [fun _ _ => (1 : ℚ), fun _ _ => (2 : ℚ)] 0 1).1
        (merge_patterns 4 4 [fun _ _ => (1 : ℚ), fun _ _ => (2 : ℚ)] 0 1).2 0 1
      = (if 1 < 4 / 2 then Store.read [fun _ _ => (1 : ℚ), fun _ _ => (2 : ℚ)] 0 0 1
          else Store.read [fun _ _ => (1 : ℚ), fun _ _ => (2 : ℚ)] 1 0 1)
    ∧ Store.read (merge_patterns 4 4 [fun _ _ => (1 : ℚ), fun _ _ => (2 : ℚ)] 0 1).1 0 0 1
      = Store.read [fun _ _ => (1 : ℚ), fun _ _ => (2 : ℚ)] 0 0 1
    ∧ Store.read (merge_patterns 4 4 [fun _ _ => (1 : ℚ), fun _ _ => (2 : ℚ)] 0 1).1 1 0 1
      = Store.read [fun _ _ => (1 : ℚ), fun _ _ => (2 : ℚ)] 1 0 1
    ∧ 0 < (merge_patterns 4 4 [fun _ _ => (1 : ℚ), fun _ _ => (2 : ℚ)] 0 1).2
    ∧ 1 < (merge_patterns 4 4 [fun _ _ => (1 : ℚ), fun _ _ => (2 : ℚ)] 0 1).2 :=
  merge_patterns_spec 4 [fun _ _ => (1 : ℚ), fun _ _ => (2 : ℚ)] 0 1
    (by decide) (by decide) 0 1

/-- C4: for every two 2D patterns `p1`, `p2` of equal shape, swapping
the arguments changes the result — `merge_patterns p2 p1` differs from
`merge_patterns p1 p2` — unless `p1 == p2`, in which case
`merge_patterns p1 p2 == p1`. -/
theorem merge_patterns_swap_spec (hgt w : Nat) (s : Store) (r₁ r₂ : Nat)
    (h₁ : r₁ < s.length) (h₂ : r₂ < s.length) :
    (eqOn hgt w
        (Store.read (merge_patterns w w s r₁ r₂).1 (merge_patterns w w s r₁ r₂).2)
        (Store.read (merge_patterns w w s r₂ r₁).1 (merge_patterns w w s r₂ r₁).2)
      ↔ eqOn hgt w (Store.read s r₁) (Store.read s r₂))
    ∧ (eqOn hgt w (Store.read s r₁) (Store.read s r₂) →
        eqOn hgt w
          (Store.read (merge_patterns w w s r₁ r₂).1 (merge_patterns w w s r₁ r₂).2)
          (Store.read s r₁)) := by
  constructor
  · constructor
    · intro hEq i hi j hj
      have h := hEq i hi j hj
      rw [merge_patterns_read_result w w s r₁ r₂ h₂ i j,
        merge_patterns_read_result w w s r₂ r₁ h₁ i j] at h
      by_cases hc : j < w / 2
      · have hcn : ¬ w / 2 ≤ j := by omega
        simpa [hc, hcn] using h
      · have hcn : w / 2 ≤ j := by omega
        have h₂' := h.symm
        simpa [hc, hcn] using h₂'
    · intro hEq i hi j hj
      have h := hEq i hi j hj
      rw [merge_patterns_read_result w w s r₁ r₂ h₂ i j,
        merge_patterns_read_result w w s r₂ r₁ h₁ i j]
      by_cases hc : j < w / 2
      · have hcn : ¬ w / 2 ≤ j := by omega
        simp [hcn, h]
      · have hcn : w / 2 ≤ j := by omega
        simp [hc, hcn, h]
  · intro hEq i hi j hj
    have h := hEq i hi j hj
    rw [merge_patterns_read_result w w s r₁ r₂ h₂ i j]
    by_cases hc : j < w / 2
    · have hcn : ¬ w / 2 ≤ j := by omega
      simp [hcn, hc]
    · have hcn : w / 2 ≤ j := by omega
      simp [hc, hcn, h.symm]

/-- Witness for C4 at a concrete store of two distinct 2×2 patterns. -/
theorem merge_patterns_swap_spec_witness :
    (eqOn 2 2
        (Store.read (merge_patterns 2 2 [fun _ _ => (1 : ℚ), fun _ _ => (0 : ℚ)] 0 1).1
          (merge_patterns 2 2 [fun _ _ => (1 : ℚ), fun _ _ => (0 : ℚ)] 0 1).2)
        (Store.read (merge_patterns 2 2 [fun _ _ => (1 : ℚ), fun _ _ => (0 : ℚ)] 1 0).1
          (merge_patterns 2 2 [fun _ _ => (1 : ℚ), fun _ _ => (0 : ℚ)] 1 0).2)
      ↔ eqOn 2 2 (Store.read [fun _ _ => (1 : ℚ), fun _ _ => (0 : ℚ)] 0)
          (Store.read [fun _ _ => (1 : ℚ), fun _ _ => (0 : ℚ)] 1))
    ∧ (eqOn 2 2 (Store.read [fun _ _ => (1 : ℚ), fun _ _ => (0 : ℚ)] 0)
          (Store.read [fun _ _ => (1 : ℚ), fun _ _ => (0 : ℚ)] 1) →
        eqOn 2 2
          (Store.read (merge_patterns 2 2 [fun _ _ => (1 : ℚ), fun _ _ => (0 : ℚ)] 0 1).1
            (merge_patterns 2 2 [fun _ _ => (1 : ℚ), fun _ _ => (0 : ℚ)] 0 1).2)
          (Store.read [fun _ _ => (1 : ℚ), fun _ _ => (0 : ℚ)] 0)) :=
  merge_patterns_swap_spec 2 2 [fun _ _ => (1 : ℚ), fun _ _ => (0 : ℚ)] 0 1
    (by decide) (by decide)

/-- C5: for every network history of length `L ≥ 1`,
`visualise_hopfield_network` with non-negative `steps_back` reads the
history entry at index `(L - 1) - steps_back` when
`steps_back ≤ L - 1`, and raises an index/bounds error (modelled as
`none`), propagated uncaught to the caller — never silently wrapping to
a wrong entry — when `steps_back` exceeds the available history
depth. -/
theorem visualise_history_index_spec {α : Type} (hist : List α) (sb : Nat)
    (hL : 1 ≤ hist.length) :
    (sb ≤ hist.length - 1 →
      visualise_read_state hist sb = hist[hist.length - 1 - sb]?
      ∧ (hist[hist.length - 1 - sb]?).isSome = true)
    ∧ (hist.length - 1 < sb → visualise_read_state hist sb = none) := by
  simp only [visualise_read_state, py_index]
  rw [if_pos (show -(sb : Int) - 1 < 0 by omega)]
  constructor
  · intro hsb
    have hcond : 0 ≤ -(sb : Int) - 1 + hist.length
        ∧ -(sb : Int) - 1 + hist.length < (hist.length : Int) := by omega
    rw [if_pos hcond]
    have hidx : (-(sb : Int) - 1 + hist.length).toNat = hist.length - 1 - sb := by
      omega
    rw [hidx]
    refine ⟨rfl, ?_⟩
    rw [List.getElem?_eq_getElem (show hist.length - 1 - sb < hist.length by omega)]
    simp
  · intro hsb
    rw [if_neg (by omega)]

/-- Witness for C5 at a three-entry history with `steps_back = 1`. -/
theorem visualise_history_index_spec_witness :
    (1 ≤ ([10, 20, 30] : List ℚ).length - 1 →
      visualise_read_state ([10, 20, 30] : List ℚ) 1
        = ([10, 20, 30] : List ℚ)[([10, 20, 30] : List ℚ).length - 1 - 1]?
      ∧ ((([10, 20, 30] : List ℚ)[([10, 20, 30] : List ℚ).length - 1 - 1]?).isSome
          = true))
    ∧ (([10, 20, 30] : List ℚ).length - 1 < 1 →
        visualise_read_state ([10, 20, 30] : List ℚ) 1 = none) :=
  visualise_history_index_spec ([10, 20, 30] : List ℚ) 1 (by decide)

theorem py_max_mem (l : List ℚ) (h : l ≠ []) : py_max l ∈ l := by
  cases l with
  | nil => cases h rfl
  | cons x xs =>
    unfold py_max
    simp only [List.headD_cons]
    rcases foldl_max_eq_init_or_mem (x :: xs) x with h1 | h1
    · rw [h1]; exact List.mem_cons_self _ _
    · exact h1

theorem le_py_max (l : List ℚ) (x : ℚ) (hx : x ∈ l) : x ≤ py_max l :=
  le_foldl_max l _ x hx

theorem np_argmax_lt_length (l : List ℚ) (h : l ≠ []) : np_argmax l < l.length := by
  apply List.findIdx_lt_length_of_exists
  exact ⟨py_max l, py_max_mem l h, by simp⟩

theorem np_argmax_getD (l : List ℚ) (h : l ≠ []) :
    l.getD (np_argmax l) 0 = py_max l := by
  have hlt : np_argmax l < l.length := np_argmax_lt_length l h
  rw [List.getD_eq_getElem l 0 hlt]
  have hp : decide (py_max l ≤ l[np_argmax l]) = true := List.findIdx_getElem (w := hlt)
  have h1 : py_max l ≤ l[np_argmax l] := of_decide_eq_true hp
  have h2 : l[np_argmax l] ≤ py_max l := le_py_max l _ (List.getElem_mem hlt)
  exact le_antisymm h2 h1

theorem np_argmax_first (l : List ℚ) (k : Nat) (hk : k < l.length)
    (hlt : k < np_argmax l) : l.getD k 0 < py_max l := by
  rw [List.getD_eq_getElem l 0 hk]
  have hp : decide (py_max l ≤ l[k]) = false := List.not_of_lt_findIdx hlt
  have h1 : ¬ py_max l ≤ l[k] := of_decide_eq_false hp
  exact lt_of_not_le h1

/-- C6: in `visualise_hopfield_network`, the highlighted "best pattern"
is the one at the index of the maximum absolute similarity value, and
when several patterns tie on maximum absolute similarity the first
(lowest-index) occurrence is selected. -/
theorem best_pattern_id_spec (sims : List ℚ) (hne : sims ≠ []) (k : Nat)
    (hk : k < sims.length) :
    best_pattern_id sims < sims.length
    ∧ |sims.getD k 0| ≤ |sims.getD (best_pattern_id sims) 0|
    ∧ (k < best_pattern_id sims →
        |sims.getD k 0| < |sims.getD (best_pattern_id sims) 0|) := by
  have hmne : sims.map (fun x => |x|) ≠ [] := by
    simpa using hne
  have hmlen : (sims.map (fun x => |x|)).length = sims.length := List.length_map _ _
  have hid : best_pattern_id sims < sims.length := by
    rw [best_pattern_id, ← hmlen]
    exact np_argmax_lt_length _ hmne
  have habs : ∀ m : Nat, m < sims.length →
      (sims.map (fun x => |x|)).getD m 0 = |sims.getD m 0| := by
    intro m hm
    rw [List.getD_eq_getElem _ 0 (by omega), List.getD_eq_getElem _ 0 hm]
    simp
  have hbest : (sims.map (fun x => |x|)).getD (best_pattern_id sims) 0
      = py_max (sims.map (fun x => |x|)) := np_argmax_getD _ hmne
  refine ⟨hid, ?_, ?_⟩
  · rw [← habs k hk, ← habs (best_pattern_id sims) hid, hbest]
    apply le_py_max
    rw [List.getD_eq_getElem _ 0 (by omega)]
    exact List.getElem_mem (by omega)
  · intro hlt
    rw [← habs k hk, ← habs (best_pattern_id sims) hid, hbest]
    exact np_argmax_first _ k (by omega) hlt

/-- Witness for C6 on similarities `[1, -2, 2]`: the absolute values tie
at indices 1 and 2, and the selected index is below the tied index 2. -/
theorem best_pattern_id_spec_witness :
    best_pattern_id [1, -2, 2] < ([1, -2, 2] : List ℚ).length
    ∧ |([1, -2, 2] : List ℚ).getD 2 0|
        ≤ |([1, -2, 2] : List ℚ).getD (best_pattern_id [1, -2, 2]) 0|
    ∧ (2 < best_pattern_id [1, -2, 2] →
        |([1, -2, 2] : List ℚ).getD 2 0|
          < |([1, -2, 2] : List ℚ).getD (best_pattern_id [1, -2, 2]) 0|) :=
  best_pattern_id_spec [1, -2, 2] (by decide) 2 (by decide)

/-- C7 (amended): for every energy history of length `L ≥ 2`,
`plot_energy` with `n_steps` unset uses `n_steps = L - 2`, and the
plotted data are the last `n_steps + 1` energy values paired with a step
axis of `n_steps + 1` integers counting up from `-n_steps - 1` towards
`0` exclusive (`np.arange(-n_steps - 1, 0)`). -/
theorem plot_energy_default_spec (hist : List ℚ) (hL : 2 ≤ hist.length) (k : Nat)
    (hk : k < hist.length - 1) :
    plot_energy_n_steps hist.length none = (hist.length : Int) - 2
    ∧ (plot_energy_data hist none).1 = lastN hist (hist.length - 1)
    ∧ (plot_energy_data hist none).1.length = hist.length - 1
    ∧ (plot_energy_data hist none).2.length = hist.length - 1
    ∧ (plot_energy_data hist none).2.getD k 0 = -(hist.length : Int) + 1 + k := by
  have hns : plot_energy_n_steps hist.length none = (hist.length : Int) - 2 := rfl
  have hdata1 : (plot_energy_data hist none).1 = hist.drop 1 := by
    simp only [plot_energy_data, hns, py_slice_from]
    rw [if_neg (by omega)]
    congr 1
    omega
  have hdata2 : (plot_energy_data hist none).2
      = (List.range (hist.length - 1)).map
          (fun k : Nat => -(hist.length : Int) + 1 + (k : Int)) := by
    simp only [plot_energy_data, hns, np_arange]
    have hn : (0 - (-((hist.length : Int) - 2) - 1)).toNat = hist.length - 1 := by
      omega
    rw [hn]
    apply List.map_congr_left
    intro a ha
    omega
  refine ⟨hns, ?_, ?_, ?_, ?_⟩
  · rw [hdata1]
    unfold lastN
    congr 1
    omega
  · rw [hdata1]
    simp
  · rw [hdata2]
    simp
  · rw [hdata2]
    rw [List.getD_eq_getElem _ 0 (by simpa using hk)]
    simp

/-- C7 counterexample: for the one-entry history `[0]` the default
`n_steps` is `1 - 2 = -1`, so "the last `n_steps + 1 = 0` energy
values" would be the empty list, but the code slices
`energy[-(-1) - 1 :] = energy[0:]` and plots the single remaining
value, paired with an empty step axis `np.arange(0, 0)`. -/
theorem plot_energy_default_len_one_cex :
    (plot_energy_data [(0 : ℚ)] none).1 = [(0 : ℚ)]
    ∧ lastN [(0 : ℚ)] ((plot_energy_n_steps 1 none) + 1).toNat = []
    ∧ (plot_energy_data [(0 : ℚ)] none).2 = []
    ∧ (plot_energy_data [(0 : ℚ)] none).1
        ≠ lastN [(0 : ℚ)] ((plot_energy_n_steps 1 none) + 1).toNat := by
  refine ⟨?_, ?_, ?_, ?_⟩ <;> decide

/-- Witness for the amended C7 at the history `[1, 2, 3]`, `k = 0`. -/
theorem plot_energy_default_spec_witness :
    plot_energy_n_steps ([1, 2, 3] : List ℚ).length none
      = (([1, 2, 3] : List ℚ).length : Int) - 2
    ∧ (plot_energy_data ([1, 2, 3] : List ℚ) none).1
      = lastN ([1, 2, 3] : List ℚ) (([1, 2, 3] : List ℚ).length - 1)
    ∧ (plot_energy_data ([1, 2, 3] : List ℚ) none).1.length
      = ([1, 2, 3] : List ℚ).length - 1
    ∧ (plot_energy_data ([1, 2, 3] : List ℚ) none).2.length
      = ([1, 2, 3] : List ℚ).length - 1
    ∧ (plot_energy_data ([1, 2, 3] : List ℚ) none).2.getD 0 0
      = -(([1, 2, 3] : List ℚ).length : Int) + 1 + 0 :=
  plot_energy_default_spec ([1, 2, 3] : List ℚ) (by decide) 0 (by decide)

theorem foldl_min_le_init {α : Type} [LinearOrder α] (l : List α) (a : α) :
    l.foldl min a ≤ a := by
  induction l generalizing a with
  | nil => simp
  | cons y ys ih => exact le_trans (ih (min a y)) (min_le_left a y)

theorem foldl_min_le {α : Type} [LinearOrder α] (l : List α) (a x : α) (hx : x ∈ l) :
    l.foldl min a ≤ x := by
  induction l generalizing a with
  | nil => cases hx
  | cons y ys ih =>
    rcases List.mem_cons.mp hx with rfl | hmem
    · exact le_trans (foldl_min_le_init ys (min a x)) (min_le_right a x)
    · exact ih (min a y) hmem

theorem foldl_min_eq_init_or_mem {α : Type} [LinearOrder α] (l : List α) (a : α) :
    l.foldl min a = a ∨ l.foldl min a ∈ l := by
  induction l generalizing a with
  | nil => left; rfl
  | cons y ys ih =>
    simp only [List.foldl_cons]
    rcases ih (min a y) with h | h
    · rcases min_cases a y with ⟨hm, _⟩ | ⟨hm, _⟩
      · left; rw [h, hm]
      · right; rw [h, hm]; exact List.mem_cons_self y ys
    · right; exact List.mem_cons_of_mem y h

theorem py_min_mem (l : List ℚ) (h : l ≠ []) : py_min l ∈ l := by
  cases l with
  | nil => cases h rfl
  | cons x xs =>
    unfold py_min
    simp only [List.headD_cons]
    rcases foldl_min_eq_init_or_mem (x :: xs) x with h1 | h1
    · rw [h1]; exact List.mem_cons_self _ _
    · exact h1

theorem py_min_le (l : List ℚ) (x : ℚ) (hx : x ∈ l) : py_min l ≤ x :=
  foldl_min_le l _ x hx

theorem np_argmin_lt_length (l : List ℚ) (h : l ≠ []) : np_argmin l < l.length := by
  apply List.findIdx_lt_length_of_exists
  exact ⟨py_min l, py_min_mem l h, by simp⟩

theorem np_argmin_getD (l : List ℚ) (h : l ≠ []) :
    l.getD (np_argmin l) 0 = py_min l := by
  have hlt : np_argmin l < l.length := np_argmin_lt_length l h
  rw [List.getD_eq_getElem l 0 hlt]
  have hp : decide (l[np_argmin l] ≤ py_min l) = true := List.findIdx_getElem (w := hlt)
  have h1 : l[np_argmin l] ≤ py_min l := of_decide_eq_true hp
  have h2 : py_min l ≤ l[np_argmin l] := py_min_le l _ (List.getElem_mem hlt)
  exact le_antisymm h1 h2

theorem np_argmin_first (l : List ℚ) (k : Nat) (hk : k < l.length)
    (hlt : k < np_argmin l) : py_min l < l.getD k 0 := by
  rw [List.getD_eq_getElem l 0 hk]
  have hp : decide (l[k] ≤ py_min l) = false := List.not_of_lt_findIdx hlt
  have h1 : ¬ l[k] ≤ py_min l := of_decide_eq_false hp
  exact lt_of_not_le h1

/-- C8 (amended): in `plot_energy`, the "1/3" and "2/3" inset indices
are the indices located by `np.argmin` over the absolute differences of
the energy values to `max(energy)` minus one third resp. two thirds of
the energy range (first occurrence of the minimal distance), replaced
by the fixed positions `int(n_steps / 3)` and `int(2 * n_steps / 3)`
whenever the located index is `0`; both resulting indices always lie
between the first and the last index inclusive (`0 ≤ idx ≤ n_steps`),
but not necessarily strictly between them, even for strictly monotonic
energy sequences. -/
theorem plot_energy_inset_spec (energy : List ℚ) (n_steps j : Nat)
    (hlen : energy.length = n_steps + 1) (hj : j ≤ n_steps) :
    (second_inset_dists energy).getD (np_argmin (second_inset_dists energy)) 0
      ≤ (second_inset_dists energy).getD j 0
    ∧ (j < np_argmin (second_inset_dists energy) →
        (second_inset_dists energy).getD (np_argmin (second_inset_dists energy)) 0
          < (second_inset_dists energy).getD j 0)
    ∧ (third_inset_dists energy).getD (np_argmin (third_inset_dists energy)) 0
      ≤ (third_inset_dists energy).getD j 0
    ∧ (j < np_argmin (third_inset_dists energy) →
        (third_inset_dists energy).getD (np_argmin (third_inset_dists energy)) 0
          < (third_inset_dists energy).getD j 0)
    ∧ (np_argmin (second_inset_dists energy) = 0 →
        second_inset_count energy n_steps = n_steps / 3)
    ∧ (np_argmin (second_inset_dists energy) ≠ 0 →
        second_inset_count energy n_steps = np_argmin (second_inset_dists energy))
    ∧ second_inset_count energy n_steps ≤ n_steps
    ∧ third_inset_count energy n_steps ≤ n_steps := by
  have hne : energy ≠ [] := by
    intro h
    rw [h] at hlen
    simp at hlen
  have hd2len : (second_inset_dists energy).length = energy.length :=
    List.length_map _ _
  have hd3len : (third_inset_dists energy).length = energy.length :=
    List.length_map _ _
  have hd2ne : second_inset_dists energy ≠ [] := by
    intro h
    have := congrArg List.length h
    rw [hd2len] at this
    simp [hlen] at this
  have hd3ne : third_inset_dists energy ≠ [] := by
    intro h
    have := congrArg List.length h
    rw [hd3len] at this
    simp [hlen] at this
  have hj2 : j < (second_inset_dists energy).length := by omega
  have hj3 : j < (third_inset_dists energy).length := by omega
  have hc2 : np_argmin (second_inset_dists energy)
      < (second_inset_dists energy).length := np_argmin_lt_length _ hd2ne
  have hc3 : np_argmin (third_inset_dists energy)
      < (third_inset_dists energy).length := np_argmin_lt_length _ hd3ne
  refine ⟨?_, ?_, ?_, ?_, ?_, ?_, ?_, ?_⟩
  · rw [np_argmin_getD _ hd2ne]
    apply py_min_le
    rw [List.getD_eq_getElem _ 0 hj2]
    exact List.getElem_mem hj2
  · intro hlt
    rw [np_argmin_getD _ hd2ne]
    exact np_argmin_first _ j hj2 hlt
  · rw [np_argmin_getD _ hd3ne]
    apply py_min_le
    rw [List.getD_eq_getElem _ 0 hj3]
    exact List.getElem_mem hj3
  · intro hlt
    rw [np_argmin_getD _ hd3ne]
    exact np_argmin_first _ j hj3 hlt
  · intro h0
    simp [second_inset_count, h0]
  · intro h0
    simp [second_inset_count, h0]
  · unfold second_inset_count
    by_cases h0 : np_argmin (second_inset_dists energy) = 0
    · rw [if_pos h0]
      exact Nat.div_le_self _ _
    · rw [if_neg h0]
      omega
  · unfold third_inset_count
    by_cases h0 : np_argmin (third_inset_dists energy) = 0
    · rw [if_pos h0]
      omega
    · rw [if_neg h0]
      omega

/-- C8 counterexample: the strictly decreasing energy sequence
`[30, 29, 0]` (length `3`, so `n_steps = 2`: first index `0`, last
index `2`) puts the "2/3" inset at index `2` — the last index, not
strictly between the first and the last index as claimed for strictly
monotonic sequences. -/
theorem plot_energy_inset_monotone_cex :
    ((30 : ℚ) > 29 ∧ (29 : ℚ) > 0)
    ∧ ([30, 29, 0] : List ℚ).length = 2 + 1
    ∧ third_inset_count [30, 29, 0] 2 = 2
    ∧ ¬ (third_inset_count [30, 29, 0] 2 < 2) := by
  have hmax : py_max [30, 29, 0] = 30 := by
    norm_num [py_max, List.foldl, List.headD]
  have hmin : py_min [30, 29, 0] = 0 := by
    norm_num [py_min, List.foldl, List.headD]
  have hptp : np_ptp [30, 29, 0] = 30 := by
    rw [np_ptp, hmax, hmin]
    norm_num
  have hdists : third_inset_dists [30, 29, 0] = [20, 19, 10] := by
    rw [third_inset_dists, hmax, hptp]
    norm_num [List.map]
  have hmin2 : py_min [20, 19, 10] = 10 := by
    norm_num [py_min, List.foldl, List.headD]
  have hargmin : np_argmin (third_inset_dists [30, 29, 0]) = 2 := by
    rw [hdists, np_argmin, hmin2]
    norm_num [List.findIdx_cons]
  have hcount : third_inset_count [30, 29, 0] 2 = 2 := by
    rw [third_inset_count, hargmin]
    norm_num
  exact ⟨⟨by norm_num, by norm_num⟩, by norm_num, hcount, by rw [hcount]; omega⟩

/-- Witness for the amended C8 at `energy = [30, 29, 0]`, `n_steps = 2`,
`j = 1`. -/
theorem plot_energy_inset_spec_witness :
    (second_inset_dists [30, 29, 0]).getD
        (np_argmin (second_inset_dists [30, 29, 0])) 0
      ≤ (second_inset_dists [30, 29, 0]).getD 1 0
    ∧ (1 < np_argmin (second_inset_dists [30, 29, 0]) →
        (second_inset_dists [30, 29, 0]).getD
            (np_argmin (second_inset_dists [30, 29, 0])) 0
          < (second_inset_dists [30, 29, 0]).getD 1 0)
    ∧ (third_inset_dists [30, 29, 0]).getD
        (np_argmin (third_inset_dists [30, 29, 0])) 0
      ≤ (third_inset_dists [30, 29, 0]).getD 1 0
    ∧ (1 < np_argmin (third_inset_dists [30, 29, 0]) →
        (third_inset_dists [30, 29, 0]).getD
            (np_argmin (third_inset_dists [30, 29, 0])) 0
          < (third_inset_dists [30, 29, 0]).getD 1 0)
    ∧ (np_argmin (second_inset_dists [30, 29, 0]) = 0 →
        second_inset_count [30, 29, 0] 2 = 2 / 3)
    ∧ (np_argmin (second_inset_dists [30, 29, 0]) ≠ 0 →
        second_inset_count [30, 29, 0] 2
          = np_argmin (second_inset_dists [30, 29, 0]))
    ∧ second_inset_count [30, 29, 0] 2 ≤ 2
    ∧ third_inset_count [30, 29, 0] 2 ≤ 2 :=
  plot_energy_inset_spec [30, 29, 0] 2 1 (by decide) (by decide)

theorem np_linspace_int_getD (stop : ℚ) (num k : Nat) (h2 : 2 ≤ num) (hk : k < num) :
    (np_linspace_int 0 stop num).getD k 0 = ⌊stop * k / ((num - 1 : Nat) : ℚ)⌋ := by
  unfold np_linspace_int
  rw [if_neg (by omega), if_neg (by omega)]
  rw [List.getD_eq_getElem _ _ (by simpa using hk)]
  simp only [List.getElem_map, List.getElem_range]
  norm_num

/-- C9: `animate_hopfield_network` produces exactly
`n_frames = animation_length_secs * fps` frames whose `steps_back`
values are sampled evenly (linearly spaced, integer-rounded) from
`n_steps` down to `0` — frame `0` redraws at offset `n_steps`, the last
frame at offset `0`, the offsets never increase from one frame to the
next so the frames run from the oldest backward offset to the most
recent state, and every offset stays within `[0, n_steps]` — and the
playback frame interval is `1000 / fps` milliseconds. -/
theorem animate_hopfield_network_spec (n_steps fps secs i j : Nat)
    (hfr : 2 ≤ secs * fps) (hij : i ≤ j) (hj : j < secs * fps) :
    (animate_hopfield_network n_steps (fps : ℚ) (secs : ℚ)).n_frames = secs * fps
    ∧ (animate_hopfield_network n_steps (fps : ℚ) (secs : ℚ)).frame_steps_back 0
        = (n_steps : Int)
    ∧ (animate_hopfield_network n_steps (fps : ℚ) (secs : ℚ)).frame_steps_back
        (secs * fps - 1) = 0
    ∧ (animate_hopfield_network n_steps (fps : ℚ) (secs : ℚ)).frame_steps_back j
        ≤ (animate_hopfield_network n_steps (fps : ℚ) (secs : ℚ)).frame_steps_back i
    ∧ 0 ≤ (animate_hopfield_network n_steps (fps : ℚ) (secs : ℚ)).frame_steps_back i
    ∧ (animate_hopfield_network n_steps (fps : ℚ) (secs : ℚ)).frame_steps_back i
        ≤ (n_steps : Int)
    ∧ (animate_hopfield_network n_steps (fps : ℚ) (secs : ℚ)).interval_ms
        = 1000 / (fps : ℚ) := by
  have hM : (⌊(secs : ℚ) * (fps : ℚ)⌋).toNat = secs * fps := by
    rw [show ((secs : ℚ) * (fps : ℚ)) = ((secs * fps : Nat) : ℚ) by push_cast; ring,
      Int.floor_natCast]
    omega
  have hden : (0 : ℚ) < ((secs * fps - 1 : Nat) : ℚ) := Nat.cast_pos.mpr (by omega)
  have hframe : ∀ k : Nat,
      (animate_hopfield_network n_steps (fps : ℚ) (secs : ℚ)).frame_steps_back k
      = (n_steps : Int) - (np_linspace_int 0 (n_steps : ℚ) (secs * fps)).getD k 0 := by
    intro k
    simp only [animate_hopfield_network, hM]
  have hval : ∀ k : Nat, k < secs * fps →
      (np_linspace_int 0 (n_steps : ℚ) (secs * fps)).getD k 0
      = ⌊(n_steps : ℚ) * (k : ℚ) / ((secs * fps - 1 : Nat) : ℚ)⌋ :=
    fun k hk => np_linspace_int_getD (n_steps : ℚ) (secs * fps) k hfr hk
  have hvalnn : ∀ k : Nat, k < secs * fps →
      0 ≤ (np_linspace_int 0 (n_steps : ℚ) (secs * fps)).getD k 0 := by
    intro k hk
    rw [hval k hk]
    apply Int.floor_nonneg.mpr
    positivity
  have hvalle : ∀ k : Nat, k < secs * fps →
      (np_linspace_int 0 (n_steps : ℚ) (secs * fps)).getD k 0 ≤ (n_steps : Int) := by
    intro k hk
    rw [hval k hk]
    have hle : (n_steps : ℚ) * (k : ℚ) / ((secs * fps - 1 : Nat) : ℚ)
        ≤ (n_steps : ℚ) := by
      rw [div_le_iff₀ hden]
      have hk1 : (k : ℚ) ≤ ((secs * fps - 1 : Nat) : ℚ) := by
        exact_mod_cast (by omega : k ≤ secs * fps - 1)
      exact mul_le_mul_of_nonneg_left hk1 (by positivity)
    calc ⌊(n_steps : ℚ) * (k : ℚ) / ((secs * fps - 1 : Nat) : ℚ)⌋
        ≤ ⌊(n_steps : ℚ)⌋ := Int.floor_le_floor hle
      _ = (n_steps : Int) := Int.floor_natCast _
  have hmono : (np_linspace_int 0 (n_steps : ℚ) (secs * fps)).getD i 0
      ≤ (np_linspace_int 0 (n_steps : ℚ) (secs * fps)).getD j 0 := by
    rw [hval i (by omega), hval j (by omega)]
    apply Int.floor_le_floor
    apply (div_le_div_iff_of_pos_right hden).mpr
    exact mul_le_mul_of_nonneg_left (by exact_mod_cast hij) (by positivity)
  refine ⟨by simp only [animate_hopfield_network]; exact hM, ?_, ?_, ?_, ?_, ?_, rfl⟩
  · rw [hframe 0, hval 0 (by omega)]
    norm_num
  · rw [hframe (secs * fps - 1), hval (secs * fps - 1) (by omega)]
    rw [mul_div_assoc, div_self hden.ne', mul_one, Int.floor_natCast]
    omega
  · rw [hframe i, hframe j]
    omega
  · rw [hframe i]
    have h1 := hvalle i (by omega)
    omega
  · rw [hframe i]
    have h1 := hvalnn i (by omega)
    omega

/-- Witness for C9 at the source defaults `n_steps = 10`, `fps = 10`,
`animation_length_secs = 5`, frames `i = 3`, `j = 7`. -/
theorem animate_hopfield_network_spec_witness :
    (animate_hopfield_network 10 (10 : ℚ) (5 : ℚ)).n_frames = 5 * 10
    ∧ (animate_hopfield_network 10 (10 : ℚ) (5 : ℚ)).frame_steps_back 0 = (10 : Int)
    ∧ (animate_hopfield_network 10 (10 : ℚ) (5 : ℚ)).frame_steps_back (5 * 10 - 1) = 0
    ∧ (animate_hopfield_network 10 (10 : ℚ) (5 : ℚ)).frame_steps_back 7
        ≤ (animate_hopfield_network 10 (10 : ℚ) (5 : ℚ)).frame_steps_back 3
    ∧ 0 ≤ (animate_hopfield_network 10 (10 : ℚ) (5 : ℚ)).frame_steps_back 3
    ∧ (animate_hopfield_network 10 (10 : ℚ) (5 : ℚ)).frame_steps_back 3 ≤ (10 : Int)
    ∧ (animate_hopfield_network 10 (10 : ℚ) (5 : ℚ)).interval_ms = 1000 / (10 : ℚ) :=
  animate_hopfield_network_spec 10 10 5 3 7 (by decide) (by decide) (by decide)
